import Mathlib

/-!
# Class scopes of the HipHop compiler (`hphp/compiler/analysis/class_scope.h`)

A shallow embedding of `HPHP::ClassScope`: the kind of a class declaration,
its attribute bit set, the used-trait list, the fatal-message sentinel, the
`TraitMethod` records of trait flattening and the error hooks of `TMIOps`.

Conventions of the embedding.

* `int m_attribute` is held as the 32-bit two's-complement bit pattern of the
  C++ `int`, a natural number; `|`, `&` and `~` act on that pattern and the
  result is reduced `% 2 ^ 32`.
* A nullable pointer (`ClassScopePtr`, `ModifierExpressionPtr`,
  `StatementPtr`, `const StringData*`) is an `Option`; a pointer the source
  dereferences unconditionally is the pointee itself.
* `assert(c)` is a check that ends the call with an error when `c` fails.
-/

namespace HPHP

/-! ## Enumerations of `ClassScope` -/

/-- The derivation status `enum class Derivation`. -/
inductive Derivation where
  | Normal
  | Redeclaring
  deriving DecidableEq, Repr

/-- The declaration kinds `ClassScope::KindOf`. -/
inductive KindOf where
  | ObjectClass
  | AbstractClass
  | FinalClass
  | UtilClass
  | Enum
  | Interface
  | Trait
  deriving DecidableEq, Repr

/-- The eight capabilities listed by `DECLARE_MAGIC`, in the order of the
macro body. -/
inductive Magic where
  | UnknownPropGetter
  | UnknownPropSetter
  | UnknownPropTester
  | PropUnsetter
  | UnknownMethodHandler
  | UnknownStaticMethodHandler
  | InvokeMethod
  | ArrayAccess
  deriving DecidableEq, Repr

/-- The expansion of `DECLARE_MAGIC(pfx, prev)`: the value given to the
enumerator `pfx ## capability`, a left shift of `prev`. -/
def DECLARE_MAGIC (prev : Nat) : Magic → Nat
  | .UnknownPropGetter          => prev <<< 1
  | .UnknownPropSetter          => prev <<< 2
  | .UnknownPropTester          => prev <<< 3
  | .PropUnsetter               => prev <<< 4
  | .UnknownMethodHandler       => prev <<< 5
  | .UnknownStaticMethodHandler => prev <<< 6
  | .InvokeMethod               => prev <<< 7
  | .ArrayAccess                => prev <<< 8

/-- The named enumerators of `enum Attribute`. -/
inductive Attribute where
  | System
  | Extension
  | HasConstructor
  | ClassNameConstructor
  | HasDestructor
  | NotFinal
  | UsesUnknownTrait
  | HasUnknownPropGetter
  | HasUnknownPropSetter
  | HasUnknownPropTester
  | HasPropUnsetter
  | HasUnknownMethodHandler
  | HasUnknownStaticMethodHandler
  | HasInvokeMethod
  | HasArrayAccess
  | MayHaveUnknownPropGetter
  | MayHaveUnknownPropSetter
  | MayHaveUnknownPropTester
  | MayHavePropUnsetter
  | MayHaveUnknownMethodHandler
  | MayHaveUnknownStaticMethodHandler
  | MayHaveInvokeMethod
  | MayHaveArrayAccess
  | InheritsUnknownPropGetter
  | InheritsUnknownPropSetter
  | InheritsUnknownPropTester
  | InheritsPropUnsetter
  | InheritsUnknownMethodHandler
  | InheritsUnknownStaticMethodHandler
  | InheritsInvokeMethod
  | InheritsArrayAccess
  deriving DecidableEq, Repr

namespace Attribute

/-- The value of `UsesUnknownTrait`, the `prev` of the first `DECLARE_MAGIC`. -/
def UsesUnknownTraitValue : Nat := 0x0040

/-- The value of `HasArrayAccess`, the `prev` of `DECLARE_MAGIC(MayHave, _)`. -/
def HasArrayAccessValue : Nat := DECLARE_MAGIC UsesUnknownTraitValue .ArrayAccess

/-- The value of `MayHaveArrayAccess`, the `prev` of
`DECLARE_MAGIC(Inherits, _)`. -/
def MayHaveArrayAccessValue : Nat := DECLARE_MAGIC HasArrayAccessValue .ArrayAccess

/-- The integer value of each enumerator, as `enum Attribute` declares it. -/
def value : Attribute → Nat
  | System                             => 0x001
  | Extension                          => 0x002
  | HasConstructor                     => 0x0004
  | ClassNameConstructor               => 0x0008
  | HasDestructor                      => 0x0010
  | NotFinal                           => 0x0020
  | UsesUnknownTrait                   => 0x0040
  | HasUnknownPropGetter               => DECLARE_MAGIC UsesUnknownTraitValue .UnknownPropGetter
  | HasUnknownPropSetter               => DECLARE_MAGIC UsesUnknownTraitValue .UnknownPropSetter
  | HasUnknownPropTester               => DECLARE_MAGIC UsesUnknownTraitValue .UnknownPropTester
  | HasPropUnsetter                    => DECLARE_MAGIC UsesUnknownTraitValue .PropUnsetter
  | HasUnknownMethodHandler            => DECLARE_MAGIC UsesUnknownTraitValue .UnknownMethodHandler
  | HasUnknownStaticMethodHandler      =>
      DECLARE_MAGIC UsesUnknownTraitValue .UnknownStaticMethodHandler
  | HasInvokeMethod                    => DECLARE_MAGIC UsesUnknownTraitValue .InvokeMethod
  | HasArrayAccess                     => DECLARE_MAGIC UsesUnknownTraitValue .ArrayAccess
  | MayHaveUnknownPropGetter           => DECLARE_MAGIC HasArrayAccessValue .UnknownPropGetter
  | MayHaveUnknownPropSetter           => DECLARE_MAGIC HasArrayAccessValue .UnknownPropSetter
  | MayHaveUnknownPropTester           => DECLARE_MAGIC HasArrayAccessValue .UnknownPropTester
  | MayHavePropUnsetter                => DECLARE_MAGIC HasArrayAccessValue .PropUnsetter
  | MayHaveUnknownMethodHandler        => DECLARE_MAGIC HasArrayAccessValue .UnknownMethodHandler
  | MayHaveUnknownStaticMethodHandler  =>
      DECLARE_MAGIC HasArrayAccessValue .UnknownStaticMethodHandler
  | MayHaveInvokeMethod                => DECLARE_MAGIC HasArrayAccessValue .InvokeMethod
  | MayHaveArrayAccess                 => DECLARE_MAGIC HasArrayAccessValue .ArrayAccess
  | InheritsUnknownPropGetter          => DECLARE_MAGIC MayHaveArrayAccessValue .UnknownPropGetter
  | InheritsUnknownPropSetter          => DECLARE_MAGIC MayHaveArrayAccessValue .UnknownPropSetter
  | InheritsUnknownPropTester          => DECLARE_MAGIC MayHaveArrayAccessValue .UnknownPropTester
  | InheritsPropUnsetter               => DECLARE_MAGIC MayHaveArrayAccessValue .PropUnsetter
  | InheritsUnknownMethodHandler       =>
      DECLARE_MAGIC MayHaveArrayAccessValue .UnknownMethodHandler
  | InheritsUnknownStaticMethodHandler =>
      DECLARE_MAGIC MayHaveArrayAccessValue .UnknownStaticMethodHandler
  | InheritsInvokeMethod               => DECLARE_MAGIC MayHaveArrayAccessValue .InvokeMethod
  | InheritsArrayAccess                => DECLARE_MAGIC MayHaveArrayAccessValue .ArrayAccess

/-- The enumerators in declaration order. -/
def all : List Attribute :=
  [System, Extension, HasConstructor, ClassNameConstructor, HasDestructor, NotFinal,
   UsesUnknownTrait,
   HasUnknownPropGetter, HasUnknownPropSetter, HasUnknownPropTester, HasPropUnsetter,
   HasUnknownMethodHandler, HasUnknownStaticMethodHandler, HasInvokeMethod, HasArrayAccess,
   MayHaveUnknownPropGetter, MayHaveUnknownPropSetter, MayHaveUnknownPropTester,
   MayHavePropUnsetter, MayHaveUnknownMethodHandler, MayHaveUnknownStaticMethodHandler,
   MayHaveInvokeMethod, MayHaveArrayAccess,
   InheritsUnknownPropGetter, InheritsUnknownPropSetter, InheritsUnknownPropTester,
   InheritsPropUnsetter, InheritsUnknownMethodHandler, InheritsUnknownStaticMethodHandler,
   InheritsInvokeMethod, InheritsArrayAccess]

/-- The enumerator `Has ## capability`. -/
def Has : Magic → Attribute
  | .UnknownPropGetter          => HasUnknownPropGetter
  | .UnknownPropSetter          => HasUnknownPropSetter
  | .UnknownPropTester          => HasUnknownPropTester
  | .PropUnsetter               => HasPropUnsetter
  | .UnknownMethodHandler       => HasUnknownMethodHandler
  | .UnknownStaticMethodHandler => HasUnknownStaticMethodHandler
  | .InvokeMethod               => HasInvokeMethod
  | .ArrayAccess                => HasArrayAccess

/-- The enumerator `MayHave ## capability`. -/
def MayHave : Magic → Attribute
  | .UnknownPropGetter          => MayHaveUnknownPropGetter
  | .UnknownPropSetter          => MayHaveUnknownPropSetter
  | .UnknownPropTester          => MayHaveUnknownPropTester
  | .PropUnsetter               => MayHavePropUnsetter
  | .UnknownMethodHandler       => MayHaveUnknownMethodHandler
  | .UnknownStaticMethodHandler => MayHaveUnknownStaticMethodHandler
  | .InvokeMethod               => MayHaveInvokeMethod
  | .ArrayAccess                => MayHaveArrayAccess

/-- The enumerator `Inherits ## capability`. -/
def Inherits : Magic → Attribute
  | .UnknownPropGetter          => InheritsUnknownPropGetter
  | .UnknownPropSetter          => InheritsUnknownPropSetter
  | .UnknownPropTester          => InheritsUnknownPropTester
  | .PropUnsetter               => InheritsPropUnsetter
  | .UnknownMethodHandler       => InheritsUnknownMethodHandler
  | .UnknownStaticMethodHandler => InheritsUnknownStaticMethodHandler
  | .InvokeMethod               => InheritsInvokeMethod
  | .ArrayAccess                => InheritsArrayAccess

/-- The position of an enumerator in the declaration, counted from zero;
`Attribute.value_eq_two_pow` shows that it is the position of its one bit. -/
def bit : Attribute → Nat
  | System                             => 0
  | Extension                          => 1
  | HasConstructor                     => 2
  | ClassNameConstructor               => 3
  | HasDestructor                      => 4
  | NotFinal                           => 5
  | UsesUnknownTrait                   => 6
  | HasUnknownPropGetter               => 7
  | HasUnknownPropSetter               => 8
  | HasUnknownPropTester               => 9
  | HasPropUnsetter                    => 10
  | HasUnknownMethodHandler            => 11
  | HasUnknownStaticMethodHandler      => 12
  | HasInvokeMethod                    => 13
  | HasArrayAccess                     => 14
  | MayHaveUnknownPropGetter           => 15
  | MayHaveUnknownPropSetter           => 16
  | MayHaveUnknownPropTester           => 17
  | MayHavePropUnsetter                => 18
  | MayHaveUnknownMethodHandler        => 19
  | MayHaveUnknownStaticMethodHandler  => 20
  | MayHaveInvokeMethod                => 21
  | MayHaveArrayAccess                 => 22
  | InheritsUnknownPropGetter          => 23
  | InheritsUnknownPropSetter          => 24
  | InheritsUnknownPropTester          => 25
  | InheritsPropUnsetter               => 26
  | InheritsUnknownMethodHandler       => 27
  | InheritsUnknownStaticMethodHandler => 28
  | InheritsInvokeMethod               => 29
  | InheritsArrayAccess                => 30

end Attribute

/-- The flattening status `ClassScope::TraitStatus`. -/
inductive TraitStatus where
  | NOT_FLATTENED
  | BEING_FLATTENED
  | FLATTENED
  deriving DecidableEq, Repr

/-- The number of bits of the C++ `int` holding `m_attribute`. -/
def intBits : Nat := 32

/-- A modifier expression; only its modifier bits (`enum Modifier`) matter
here. -/
structure ModifierExpression where
  m_modifiers : Nat
  deriving DecidableEq, Repr

/-- A function scope of a class, as far as the method table needs it: the
name of the method, its modifiers, and the name of the trait it was imported
from (`none` for a method the class declares itself). -/
structure FunctionScope where
  name : String
  modifiers : Option ModifierExpression
  definingTrait : Option String
  deriving DecidableEq, Repr

/-- The data members of `ClassScope` that the embedded operations read or
write. `m_functionsVec` holds the function scopes in declaration order;
`m_originalName` is the name that `getOriginalName()` returns. -/
structure ClassScope where
  m_originalName : String
  m_functionsVec : List FunctionScope
  m_parent : String
  m_usedTraitNames : List String
  m_attribute : Nat
  m_redeclaring : Int
  m_kindOf : KindOf
  m_derivesFromRedeclaring : Derivation
  m_traitStatus : TraitStatus
  m_fatal_error_msg : Option String
  deriving DecidableEq, Repr

namespace ClassScope

/-- Source: `bool isRedeclaring() const { return m_redeclaring >= 0; }`. -/
def isRedeclaring (s : ClassScope) : Bool := decide (s.m_redeclaring ≥ 0)

/-- Source: `void setAttribute(Attribute attr) { m_attribute |= attr; }`. -/
def setAttribute (s : ClassScope) (attr : Attribute) : ClassScope :=
  { s with m_attribute := (s.m_attribute ||| attr.value) % 2 ^ intBits }

/-- Source: `void clearAttribute(Attribute attr) { m_attribute &= ~attr; }`.
On the bit pattern, `~attr` is `2 ^ 32 - 1 - attr`. -/
def clearAttribute (s : ClassScope) (attr : Attribute) : ClassScope :=
  { s with m_attribute := (s.m_attribute &&& (2 ^ intBits - 1 - attr.value)) % 2 ^ intBits }

/-- Source: `bool getAttribute(Attribute attr) const { return m_attribute & attr; }`:
the conversion of the `int` to `bool` tests it against zero. -/
def getAttribute (s : ClassScope) (attr : Attribute) : Bool :=
  decide (s.m_attribute &&& attr.value ≠ 0)

/-- Source: `KindOf getKind() { return m_kindOf; }`. -/
def getKind (s : ClassScope) : KindOf := s.m_kindOf

/-- Source: `bool isInterface() const`. -/
def isInterface (s : ClassScope) : Bool := s.m_kindOf == KindOf.Interface

/-- Source: `bool isFinal() const`. -/
def isFinal (s : ClassScope) : Bool :=
  s.m_kindOf == KindOf.FinalClass ||
  s.m_kindOf == KindOf.Trait ||
  s.m_kindOf == KindOf.UtilClass ||
  s.m_kindOf == KindOf.Enum

/-- Source: `bool isAbstract() const`. -/
def isAbstract (s : ClassScope) : Bool :=
  s.m_kindOf == KindOf.AbstractClass ||
  s.m_kindOf == KindOf.Trait ||
  s.m_kindOf == KindOf.UtilClass

/-- Source: `bool isTrait() const`. -/
def isTrait (s : ClassScope) : Bool := s.m_kindOf == KindOf.Trait

/-- Source: `bool isEnum() const`. -/
def isEnum (s : ClassScope) : Bool := s.m_kindOf == KindOf.Enum

/-- Source: `bool isStaticUtil() const`. -/
def isStaticUtil (s : ClassScope) : Bool := s.m_kindOf == KindOf.UtilClass

/-- Source: `ClassScope::hasAttribute(attr, ar)`. The parent lookup
`getParentScope(ar)` is declared in the header and defined elsewhere; it is
a parameter here, with `none` for the null pointer. The recursion follows
the parent chain, so it carries fuel: `none` means the fuel ran out. -/
def hasAttribute (getParentScope : ClassScope → Option ClassScope) :
    Nat → ClassScope → Attribute → Option Bool
  | 0, _, _ => none
  | fuel + 1, s, attr =>
    if s.getAttribute attr then some true
    else
      match getParentScope s with
      | none => some false
      | some parent =>
        if parent.isRedeclaring then some false
        else hasAttribute getParentScope fuel parent attr

/-- The parent chain of `s`, followed through `getParentScope`, ends after
at most `n` hops. -/
def parentChainWithin (getParentScope : ClassScope → Option ClassScope) :
    Nat → ClassScope → Bool
  | 0, s => (getParentScope s).isNone
  | n + 1, s =>
    match getParentScope s with
    | none => true
    | some parent => parentChainWithin getParentScope n parent

/-- Modelled from the spec: `usesTrait(traitName)` is declared in the header
(line 489) and its body lies outside the header. The spec calls
`usedTraitNames` "ordered, dedup-by-name": the test is whether the name is
one of `m_usedTraitNames`. -/
def usesTrait (s : ClassScope) (traitName : String) : Bool :=
  s.m_usedTraitNames.contains traitName

/-- Source: `ClassScope::addUsedTraits(names)`: the loop visits
`names[0], names[1], ...` in order and appends each name the scope does not
use yet. (The index is an `unsigned`; a vector has fewer than `2 ^ 32`
names.) -/
def addUsedTraits (s : ClassScope) (names : List String) : ClassScope :=
  names.foldl
    (fun cs name =>
      if !cs.usesTrait name then
        { cs with m_usedTraitNames := cs.m_usedTraitNames ++ [name] }
      else cs)
    s

/-- Source: `getUsedTraitNames()`. -/
def getUsedTraitNames (s : ClassScope) : List String := s.m_usedTraitNames

/-- Source: `const StringData* getFatalMessage() const`. -/
def getFatalMessage (s : ClassScope) : Option String := s.m_fatal_error_msg

end ClassScope

/-- The exception `AnalysisTimeFatalException`, of which `setFatal` reads
`getMessage()` only. -/
structure AnalysisTimeFatalException where
  getMessage : String
  deriving DecidableEq, Repr

/-- The two `assert`s of `setFatal`. -/
inductive AssertionFailure where
  | fatalAlreadySet
  | staticStringNull
  deriving DecidableEq, Repr

/-- Modelled from the spec: `makeStaticString` belongs to the runtime,
outside this header. The spec holds `fatalMessage` as an "optional sentinel":
the interned string is present (a non-null pointer) and is the text given. -/
def makeStaticString (msg : String) : Option String := some msg

namespace ClassScope

/-- Source: `ClassScope::setFatal(fatal)`:
`assert(m_fatal_error_msg == nullptr);`
`m_fatal_error_msg = makeStaticString(fatal.getMessage());`
`assert(m_fatal_error_msg != nullptr);`. -/
def setFatal (s : ClassScope) (fatal : AnalysisTimeFatalException) :
    Except AssertionFailure ClassScope :=
  if s.m_fatal_error_msg ≠ none then .error .fatalAlreadySet
  else
    let s1 := { s with m_fatal_error_msg := makeStaticString fatal.getMessage }
    if s1.m_fatal_error_msg = none then .error .staticStringNull
    else .ok s1

/-- A sequence of `setFatal` calls on one scope, each made on the result of
the one before; the first failed assertion ends the sequence. -/
def setFatalSeq (s : ClassScope) :
    List AnalysisTimeFatalException → Except AssertionFailure ClassScope
  | [] => .ok s
  | fatal :: rest =>
    match s.setFatal fatal with
    | .error e => .error e
    | .ok s1 => setFatalSeq s1 rest

end ClassScope

/-! ## Statements and trait-method records -/

/-- A method statement, as far as `TraitMethod` reads it. -/
structure MethodStatement where
  m_originalName : String
  m_modifiers : Option ModifierExpression
  deriving DecidableEq, Repr

/-- Source use: `method_->getOriginalName()`. -/
def MethodStatement.getOriginalName (m : MethodStatement) : String := m.m_originalName

/-- Source use: `method_->getModifiers()`. -/
def MethodStatement.getModifiers (m : MethodStatement) : Option ModifierExpression :=
  m.m_modifiers

/-- An alias rule `use T::m as [modifiers] n`. -/
structure TraitAliasStatement where
  m_traitName : String
  m_methodName : String
  m_newMethodName : String
  m_modifiers : Option ModifierExpression
  deriving DecidableEq, Repr

/-- Source use: `stmt->getModifiers()`. -/
def TraitAliasStatement.getModifiers (a : TraitAliasStatement) : Option ModifierExpression :=
  a.m_modifiers

/-- Source use: `stmt->getNewMethodName()`. -/
def TraitAliasStatement.getNewMethodName (a : TraitAliasStatement) : String :=
  a.m_newMethodName

/-- Source use: `stmt->getMethodName()`. -/
def TraitAliasStatement.getMethodName (a : TraitAliasStatement) : String := a.m_methodName

/-- Source use: `stmt->getTraitName()`. -/
def TraitAliasStatement.getTraitName (a : TraitAliasStatement) : String := a.m_traitName

/-- A precedence rule `use T::m insteadof U, V`. -/
structure TraitPrecStatement where
  m_traitName : String
  m_methodName : String
  m_otherTraitNames : List String
  deriving DecidableEq, Repr

/-- What a `StatementPtr` may point to in this header. -/
inductive Statement where
  | method (m : MethodStatement)
  | traitAlias (a : TraitAliasStatement)
  | traitPrec (p : TraitPrecStatement)
  | classStmt (className : String)
  deriving DecidableEq, Repr

/-- Source: `struct ClassScope::TraitMethod`. -/
structure TraitMethod where
  trait : Option ClassScope
  method : MethodStatement
  originalName : String
  modifiers : Option ModifierExpression
  ruleStmt : Option Statement
  deriving DecidableEq, Repr

namespace TraitMethod

/-- Source: the four-argument constructor
`TraitMethod(trait_, method_, modifiers_, ruleStmt_)`. -/
def ctor (trait_ : Option ClassScope) (method_ : MethodStatement)
    (modifiers_ : Option ModifierExpression) (ruleStmt_ : Option Statement) : TraitMethod :=
  { trait := trait_
    method := method_
    originalName := method_.getOriginalName
    modifiers := if modifiers_.isSome then modifiers_ else method_.getModifiers
    ruleStmt := ruleStmt_ }

/-- Source: the five-argument constructor
`TraitMethod(trait_, method_, modifiers_, ruleStmt_, originalName_)`. -/
def ctorNamed (trait_ : Option ClassScope) (method_ : MethodStatement)
    (modifiers_ : Option ModifierExpression) (ruleStmt_ : Option Statement)
    (originalName_ : String) : TraitMethod :=
  { trait := trait_
    method := method_
    originalName := originalName_
    modifiers := if modifiers_.isSome then modifiers_ else method_.getModifiers
    ruleStmt := ruleStmt_ }

end TraitMethod

/-! ## The operations `ClassScope::TMIOps` -/

/-- Modelled from the spec: the error kinds of `Compiler::ErrorType`, an
enumeration declared outside this header. The spec names the kinds
"UnknownTrait, UnknownTraitMethod, MethodInMultipleTraits,
InconsistentInsteadOf, MultiplyExcluded, UnknownObjectMethod,
cyclic-inheritance, requirement-violation", and speaks of a
"trait-composition-cycle error" for a flatten request on a scope in
progress. -/
inductive ErrorType where
  | UnknownTrait
  | UnknownTraitMethod
  | MethodInMultipleTraits
  | InconsistentInsteadOf
  | MultiplyExcluded
  | UnknownObjectMethod
  | CyclicInheritance
  | RequirementViolation
  | TraitCompositionCycle
  deriving DecidableEq, Repr

/-- The message templates of `Strings::` that `TMIOps` names. -/
inductive Strings where
  | TRAITS_UNKNOWN_TRAIT_METHOD
  | TRAITS_UNKNOWN_TRAIT
  | METHOD_IN_MULTIPLE_TRAITS
  | INCONSISTENT_INSTEADOF
  | MULTIPLY_EXCLUDED
  deriving DecidableEq, Repr

/-- The statement an error is raised on: a rule statement, or the statement
of a class scope (`cs->getStmt()`). -/
inductive ErrorSite where
  | stmt (s : Statement)
  | scopeStmt (cs : ClassScope)
  deriving DecidableEq, Repr

/-- One call `site->analysisTimeFatal(kind, fmt, args...)`, or
`Compiler::Error(kind, site)` when `fmt` is `none`. -/
structure AnalysisTimeFatal where
  site : ErrorSite
  kind : ErrorType
  fmt : Option Strings
  args : List String
  deriving DecidableEq, Repr

namespace TMIOps

/-- Source: `TMIOps::strEmpty`. -/
def strEmpty (str : String) : Bool := str.isEmpty

/-- Source: `TMIOps::isTrait`. -/
def isTrait (cls : ClassScope) : Bool := cls.isTrait

/-- Source: `TMIOps::exclude`. -/
def exclude (_ : String) : Bool := false

/-- Source: `TMIOps::traitMethod(traitCls, methStmt, stmt)`. -/
def traitMethod (traitCls : Option ClassScope) (methStmt : MethodStatement)
    (stmt : TraitAliasStatement) : TraitMethod :=
  TraitMethod.ctorNamed traitCls methStmt stmt.getModifiers
    (some (Statement.traitAlias stmt)) stmt.getNewMethodName

/-- Source: `TMIOps::aliasNewMethodName`. -/
def aliasNewMethodName (stmt : TraitAliasStatement) : String := stmt.getNewMethodName

/-- Source: `TMIOps::aliasOrigMethodName`. -/
def aliasOrigMethodName (stmt : TraitAliasStatement) : String := stmt.getMethodName

/-- Source: `TMIOps::errorUnknownMethod(prec_type stmt)`. -/
def errorUnknownMethodPrec (stmt : TraitPrecStatement) : AnalysisTimeFatal :=
  { site := .stmt (.traitPrec stmt), kind := .UnknownObjectMethod, fmt := none, args := [] }

/-- Source: `TMIOps::errorUnknownMethod(alias_type stmt, methName)`. -/
def errorUnknownMethodAlias (stmt : TraitAliasStatement) (methName : String) :
    AnalysisTimeFatal :=
  { site := .stmt (.traitAlias stmt), kind := .UnknownTraitMethod,
    fmt := some .TRAITS_UNKNOWN_TRAIT_METHOD, args := [methName] }

/-- Source: `TMIOps::errorUnknownTrait(stmt, traitName)`. -/
def errorUnknownTrait (stmt : Statement) (traitName : String) : AnalysisTimeFatal :=
  { site := .stmt stmt, kind := .UnknownTrait,
    fmt := some .TRAITS_UNKNOWN_TRAIT, args := [traitName] }

/-- Source: `TMIOps::errorDuplicateMethod(cs, methName)`. -/
def errorDuplicateMethod (cs : ClassScope) (methName : String) : AnalysisTimeFatal :=
  { site := .scopeStmt cs, kind := .MethodInMultipleTraits,
    fmt := some .METHOD_IN_MULTIPLE_TRAITS, args := [methName] }

/-- Source: `TMIOps::errorInconsistentInsteadOf(cs, methName)`. -/
def errorInconsistentInsteadOf (cs : ClassScope) (methName : String) : AnalysisTimeFatal :=
  { site := .scopeStmt cs, kind := .InconsistentInsteadOf,
    fmt := some .INCONSISTENT_INSTEADOF,
    args := [methName, cs.m_originalName, cs.m_originalName] }

/-- Source: `TMIOps::errorMultiplyExcluded(stmt, traitName, methName)`:
`stmt->analysisTimeFatal(Compiler::InconsistentInsteadOf,`
`Strings::MULTIPLY_EXCLUDED, traitName.c_str(), methName.c_str())`. -/
def errorMultiplyExcluded (stmt : Statement) (traitName methName : String) :
    AnalysisTimeFatal :=
  { site := .stmt stmt, kind := .InconsistentInsteadOf,
    fmt := some .MULTIPLY_EXCLUDED, args := [traitName, methName] }

end TMIOps

/-! ## Trait flattening -/

/-- The order `NOT_FLATTENED`, `BEING_FLATTENED`, `FLATTENED` of the
enumerators of `TraitStatus`. -/
def TraitStatus.rank : TraitStatus → Nat
  | .NOT_FLATTENED => 0
  | .BEING_FLATTENED => 1
  | .FLATTENED => 2

/-- The class table of an analysis result: the scopes, each known by its
position. An operation that changes a scope in place returns the table with
the scope at that position replaced. -/
abbrev ClassTable := List ClassScope

/-- What a flatten request gives back: the class table after it and the
errors it raised. -/
abbrev FlattenResult := ClassTable × List AnalysisTimeFatal

/-- The number of scopes of the table that are still `NOT_FLATTENED`. -/
def notFlattenedCount (ar : ClassTable) : Nat :=
  ar.countP (fun cs => cs.m_traitStatus == TraitStatus.NOT_FLATTENED)

/-- Modelled from the spec: `hasMethod(methodName)` is declared in the
header (line 488), its body lies outside it. The spec gives the method table "a
name→method index (case-insensitive)". -/
def ClassScope.hasMethod (cs : ClassScope) (methodName : String) : Bool :=
  cs.m_functionsVec.any (fun f => f.name.toLower == methodName.toLower)

/-- Modelled from the spec: step 1 of the flattening procedure, for one used
trait: "collect its direct declared methods (already-imported trait methods
are not re-exported transitively unless re-listed)" as candidates
(sourceTrait, method, modifiers). -/
def directTraitMethods (trait : ClassScope) : List TraitMethod :=
  (trait.m_functionsVec.filter (fun f => f.definingTrait.isNone)).map
    (fun f => TraitMethod.ctor (some trait) ⟨f.name, f.modifiers⟩ none none)

/-- Modelled from the spec: step 1 over the used-trait list of a class. The
lookup `resolve` is the external name→scope lookup. A used name that does
not resolve to a trait raises `UnknownTrait` on the class and sets the fact
"uses-an-unresolvable-trait". -/
def collectTraitMethods (resolve : String → Option Nat) (ar : ClassTable) :
    List String → ClassScope → List TraitMethod × ClassScope × List AnalysisTimeFatal
  | [], cs => ([], cs, [])
  | name :: rest, cs =>
    match (resolve name).bind (fun tid => ar.get? tid) with
    | some trait =>
      if trait.isTrait then
        let r := collectTraitMethods resolve ar rest cs
        (directTraitMethods trait ++ r.1, r.2.1, r.2.2)
      else
        let r := collectTraitMethods resolve ar rest (cs.setAttribute .UsesUnknownTrait)
        (r.1, r.2.1,
          TMIOps.errorUnknownTrait (.classStmt cs.m_originalName) name :: r.2.2)
    | none =>
      let r := collectTraitMethods resolve ar rest (cs.setAttribute .UsesUnknownTrait)
      (r.1, r.2.1,
        TMIOps.errorUnknownTrait (.classStmt cs.m_originalName) name :: r.2.2)

/-- Modelled from the spec: step 5 for one surviving candidate: "if the
class already declares a method of that name directly, skip (self-declared
always wins, no error). Otherwise import it, binding modifiers from the
alias rule if present else from the source method, and binding its defining
trait". The modifiers were bound when the `TraitMethod` was built. -/
def ClassScope.importTraitMethod (cs : ClassScope) (tm : TraitMethod) : ClassScope :=
  if cs.hasMethod tm.originalName then cs
  else
    { cs with
      m_functionsVec := cs.m_functionsVec ++
        [{ name := tm.originalName, modifiers := tm.modifiers,
           definingTrait := tm.trait.map (fun t => t.m_originalName) }] }

/-- Modelled from the spec: "For every used trait (recursively flattened
first)": the flatten request `request` is made, in order, on every used name
that resolves to a trait of the table; a request that does not return ends
the pass. -/
def flattenUsedTraits (request : ClassTable → Nat → Option FlattenResult)
    (resolve : String → Option Nat) : List String → ClassTable → Option FlattenResult
  | [], ar => some (ar, [])
  | name :: rest, ar =>
    match resolve name with
    | none => flattenUsedTraits request resolve rest ar
    | some tid =>
      match ar.get? tid with
      | none => flattenUsedTraits request resolve rest ar
      | some trait =>
        if trait.isTrait then
          match request ar tid with
          | none => none
          | some r1 =>
            match flattenUsedTraits request resolve rest r1.1 with
            | none => none
            | some r2 => some (r2.1, r1.2 ++ r2.2)
        else flattenUsedTraits request resolve rest ar

/-- Modelled from the spec: `importUsedTraits(ar)` is declared in the header
(line 285), its body lies outside it. The spec, section 4.2: "State machine:
NotStarted → (on first request) InProgress → Done. Requesting flatten while
InProgress reports a trait-composition-cycle error [...] and aborts that
branch [...]. Already-Done requests are no-ops (idempotent)", then steps 1
to 5 of the procedure. Steps 2 to 4 (precedence rules, conflicts, alias
rules) are `applyTraitRules`, declared in the header (line 486) with its
body outside it: it is a parameter, from the class and the candidates to the
surviving candidates and the errors raised.

The request is made on the scope at position `id` of the table. The
recursion goes through the used traits, so it carries fuel: `none` means
that the fuel ran out or that `id` is not a position of the table. -/
def importUsedTraits (resolve : String → Option Nat)
    (applyTraitRules : ClassScope → List TraitMethod → List TraitMethod × List AnalysisTimeFatal) :
    Nat → ClassTable → Nat → Option FlattenResult
  | 0, _, _ => none
  | fuel + 1, ar, id =>
    match ar.get? id with
    | none => none
    | some cs =>
      match cs.m_traitStatus with
      | .FLATTENED => some (ar, [])
      | .BEING_FLATTENED =>
        some (ar, [{ site := .scopeStmt cs, kind := .TraitCompositionCycle, fmt := none,
                     args := [cs.m_originalName] }])
      | .NOT_FLATTENED =>
        let ar1 := ar.set id { cs with m_traitStatus := .BEING_FLATTENED }
        match flattenUsedTraits (importUsedTraits resolve applyTraitRules fuel) resolve
            cs.m_usedTraitNames ar1 with
        | none => none
        | some r2 =>
          match r2.1.get? id with
          | none => none
          | some cs2 =>
            let collected := collectTraitMethods resolve r2.1 cs2.m_usedTraitNames cs2
            let ruled := applyTraitRules collected.2.1 collected.1
            let cs3 := ruled.1.foldl ClassScope.importTraitMethod collected.2.1
            some (r2.1.set id { cs3 with m_traitStatus := .FLATTENED },
                  r2.2 ++ collected.2.2 ++ ruled.2)

/-- How one scope may differ before and after a flatten request: its status
does not move backwards, and a scope that was not `NOT_FLATTENED` before is
left as it was. -/
def StatusAdvance (before after : ClassScope) : Prop :=
  before.m_traitStatus.rank ≤ after.m_traitStatus.rank
  ∧ (before.m_traitStatus ≠ TraitStatus.NOT_FLATTENED → after = before)

/-! ## Sample scopes -/

/-- A trait `T1` declaring `hello`. -/
def sampleTrait : ClassScope :=
  { m_originalName := "T1", m_functionsVec := [⟨"hello", none, none⟩], m_parent := "",
    m_usedTraitNames := [], m_attribute := 0, m_redeclaring := -1,
    m_kindOf := .Trait, m_derivesFromRedeclaring := .Normal,
    m_traitStatus := .NOT_FLATTENED, m_fatal_error_msg := none }

/-- A redeclared class `Base` (`m_redeclaring = 0`) with an explicit
constructor. -/
def sampleRedeclaredBase : ClassScope :=
  { m_originalName := "Base", m_functionsVec := [⟨"__construct", none, none⟩], m_parent := "",
    m_usedTraitNames := [], m_attribute := 0x0004, m_redeclaring := 0,
    m_kindOf := .ObjectClass, m_derivesFromRedeclaring := .Normal,
    m_traitStatus := .NOT_FLATTENED, m_fatal_error_msg := none }

/-- A parent lookup that resolves the parent name `Base` to the redeclared
`sampleRedeclaredBase`. -/
def sampleRedeclaredParentOf (s : ClassScope) : Option ClassScope :=
  if s.m_parent = "Base" then some sampleRedeclaredBase else none


/-- A plain class `Base` with an explicit constructor and no parent. -/
def sampleBase : ClassScope :=
  { m_originalName := "Base", m_functionsVec := [⟨"__construct", none, none⟩], m_parent := "",
    m_usedTraitNames := [], m_attribute := 0x0004, m_redeclaring := -1,
    m_kindOf := .ObjectClass, m_derivesFromRedeclaring := .Normal,
    m_traitStatus := .NOT_FLATTENED, m_fatal_error_msg := none }

/-- A class `Derived extends Base` with no attribute bit of its own. -/
def sampleDerived : ClassScope :=
  { m_originalName := "Derived", m_functionsVec := [], m_parent := "Base",
    m_usedTraitNames := ["T1"], m_attribute := 0, m_redeclaring := -1,
    m_kindOf := .ObjectClass, m_derivesFromRedeclaring := .Normal,
    m_traitStatus := .NOT_FLATTENED, m_fatal_error_msg := none }

/-- An enum declaration. -/
def sampleEnum : ClassScope :=
  { m_originalName := "Color", m_functionsVec := [], m_parent := "",
    m_usedTraitNames := [], m_attribute := 0, m_redeclaring := -1,
    m_kindOf := .Enum, m_derivesFromRedeclaring := .Normal,
    m_traitStatus := .NOT_FLATTENED, m_fatal_error_msg := none }

/-- A parent lookup that resolves the parent name `Base` to `sampleBase`. -/
def sampleParentOf (s : ClassScope) : Option ClassScope :=
  if s.m_parent = "Base" then some sampleBase else none

/-- A class table holding `sampleTrait` at position 0 and `sampleDerived`,
which uses `T1`, at position 1. -/
def sampleTable : ClassTable := [sampleTrait, sampleDerived]

/-- The lookup of `sampleTable`: `T1` is at position 0. -/
def sampleResolve (name : String) : Option Nat :=
  if name = "T1" then some 0 else none

/-- A rule step without rules: every candidate survives. -/
def noTraitRules (_ : ClassScope) (candidates : List TraitMethod) :
    List TraitMethod × List AnalysisTimeFatal :=
  (candidates, [])

/-! ## Theorems -/

/-! ### Attribute bits -/

theorem Attribute.value_eq_two_pow (a : Attribute) : a.value = 2 ^ a.bit := by
  cases a <;> rfl

theorem Attribute.bit_lt (a : Attribute) : a.bit < 31 := by
  cases a <;> decide

theorem Attribute.bit_injective {a b : Attribute} (h : a.bit = b.bit) : a = b := by
  cases a <;> cases b <;> first | rfl | (exact absurd h (by decide))

theorem ClassScope.getAttribute_eq_testBit (s : ClassScope) (a : Attribute) :
    s.getAttribute a = s.m_attribute.testBit a.bit := by
  unfold ClassScope.getAttribute
  rw [Attribute.value_eq_two_pow, Nat.and_two_pow]
  cases h : s.m_attribute.testBit a.bit <;> simp

theorem ClassScope.testBit_setAttribute (s : ClassScope) (a : Attribute) (i : Nat)
    (hi : i < 32) :
    (s.setAttribute a).m_attribute.testBit i
      = (s.m_attribute.testBit i || decide (a.bit = i)) := by
  show ((s.m_attribute ||| a.value) % 2 ^ 32).testBit i = _
  rw [Attribute.value_eq_two_pow, Nat.testBit_mod_two_pow, Nat.testBit_or, Nat.testBit_two_pow]
  simp [hi]

theorem ClassScope.testBit_clearAttribute (s : ClassScope) (a : Attribute) (i : Nat)
    (hi : i < 32) :
    (s.clearAttribute a).m_attribute.testBit i
      = (s.m_attribute.testBit i && !decide (a.bit = i)) := by
  have hlt : 2 ^ a.bit < 2 ^ 32 :=
    Nat.pow_lt_pow_right (by decide) (Nat.lt_trans a.bit_lt (by decide))
  have hsub : 2 ^ 32 - 1 - 2 ^ a.bit = 2 ^ 32 - (2 ^ a.bit + 1) := by omega
  show ((s.m_attribute &&& (2 ^ 32 - 1 - a.value)) % 2 ^ 32).testBit i = _
  rw [Attribute.value_eq_two_pow, hsub, Nat.testBit_mod_two_pow, Nat.testBit_and, Nat.testBit_two_pow_sub_succ hlt,
    Nat.testBit_two_pow]
  simp [hi]

/-- C10: the 31 named `Attribute` enumerators are, in declaration order,
exactly the single bits `2 ^ 0` through `2 ^ 30`, hence pairwise distinct and
below `2 ^ 31`; for each capability `MayHaveC = HasC * 2 ^ 8` and
`InheritsC = HasC * 2 ^ 16`; and on every scope `setAttribute a` makes
`getAttribute a` true, `clearAttribute a` makes it false, and neither changes
`getAttribute b` for a named attribute `b` other than `a`. -/
theorem attribute_constants_are_independent_bits :
    Attribute.all.map Attribute.value = (List.range 31).map (fun i => 2 ^ i)
    ∧ (∀ a : Attribute, a ∈ Attribute.all)
    ∧ (∀ a : Attribute, a.value < 2 ^ 31)
    ∧ (∀ a b : Attribute, a ≠ b → a.value ≠ b.value)
    ∧ (∀ c : Magic,
        (Attribute.MayHave c).value = (Attribute.Has c).value * 2 ^ 8
        ∧ (Attribute.Inherits c).value = (Attribute.Has c).value * 2 ^ 16)
    ∧ (∀ (s : ClassScope) (a : Attribute),
        (s.setAttribute a).getAttribute a = true
        ∧ (s.clearAttribute a).getAttribute a = false
        ∧ ∀ b : Attribute, a ≠ b →
            (s.setAttribute a).getAttribute b = s.getAttribute b
            ∧ (s.clearAttribute a).getAttribute b = s.getAttribute b) := by
  refine ⟨by decide, ?_, ?_, ?_, ?_, ?_⟩
  · intro a
    cases a <;> decide
  · intro a
    rw [a.value_eq_two_pow]
    exact Nat.pow_lt_pow_right (by decide) a.bit_lt
  · intro a b hab hv
    rw [a.value_eq_two_pow, b.value_eq_two_pow] at hv
    exact hab (Attribute.bit_injective (Nat.pow_right_injective (Nat.le_refl 2) hv))
  · intro c
    cases c <;> exact ⟨by decide, by decide⟩
  · intro s a
    have ha : a.bit < 32 := Nat.lt_trans a.bit_lt (by decide)
    refine ⟨?_, ?_, ?_⟩
    · rw [ClassScope.getAttribute_eq_testBit, ClassScope.testBit_setAttribute s a _ ha]
      simp
    · rw [ClassScope.getAttribute_eq_testBit, ClassScope.testBit_clearAttribute s a _ ha]
      simp
    · intro b hab
      have hb : b.bit < 32 := Nat.lt_trans b.bit_lt (by decide)
      have hne : ¬ a.bit = b.bit := fun h => hab (Attribute.bit_injective h)
      constructor
      · rw [ClassScope.getAttribute_eq_testBit, ClassScope.testBit_setAttribute s a _ hb,
          ClassScope.getAttribute_eq_testBit]
        simp [hne]
      · rw [ClassScope.getAttribute_eq_testBit, ClassScope.testBit_clearAttribute s a _ hb,
          ClassScope.getAttribute_eq_testBit]
        simp [hne]

/-- C10, at an instance: setting `HasConstructor` on `sampleDerived` and
clearing it on `sampleBase` leave `System` as it was. -/
theorem attribute_constants_are_independent_bits_witness :
    Attribute.HasConstructor ≠ Attribute.System
    ∧ (sampleDerived.setAttribute .HasConstructor).getAttribute .System
        = sampleDerived.getAttribute .System
    ∧ (sampleBase.clearAttribute .HasConstructor).getAttribute .System
        = sampleBase.getAttribute .System :=
  ⟨by decide,
   ((attribute_constants_are_independent_bits.2.2.2.2.2 sampleDerived .HasConstructor).2.2
      .System (by decide)).1,
   ((attribute_constants_are_independent_bits.2.2.2.2.2 sampleBase .HasConstructor).2.2
      .System (by decide)).2⟩

/-- C8, as stated, fails: `clearAttribute` removes a bit that was set. On
`sampleBase`, `getAttribute(HasConstructor)` is true before
`clearAttribute(HasConstructor)` and false after it. -/
theorem attribute_bits_only_added_counterexample :
    sampleBase.getAttribute .HasConstructor = true
    ∧ (sampleBase.clearAttribute .HasConstructor).getAttribute .HasConstructor = false := by
  decide

/-- C8, amended: `setAttribute a` never removes a bit: a named attribute `b`
that is set before is set after. `clearAttribute a` removes the bit of `a`
and no other: a named attribute `b` other than `a` that is set before is
set after; and, on every scope, `getAttribute a` is false after
`clearAttribute a`, whatever was set before. -/
theorem attribute_bits_kept_except_cleared (s : ClassScope) (a b : Attribute) :
    (s.getAttribute b = true → (s.setAttribute a).getAttribute b = true)
    ∧ (s.getAttribute b = true → a ≠ b → (s.clearAttribute a).getAttribute b = true)
    ∧ (s.clearAttribute a).getAttribute a = false := by
  have ha : a.bit < 32 := Nat.lt_trans a.bit_lt (by decide)
  have hb : b.bit < 32 := Nat.lt_trans b.bit_lt (by decide)
  refine ⟨?_, ?_, ?_⟩
  · intro h
    rw [ClassScope.getAttribute_eq_testBit] at h
    rw [ClassScope.getAttribute_eq_testBit, ClassScope.testBit_setAttribute s a _ hb, h]
    simp
  · intro h hab
    rw [ClassScope.getAttribute_eq_testBit] at h
    have hne : ¬ a.bit = b.bit := fun e => hab (Attribute.bit_injective e)
    rw [ClassScope.getAttribute_eq_testBit, ClassScope.testBit_clearAttribute s a _ hb, h]
    simp [hne]
  · rw [ClassScope.getAttribute_eq_testBit, ClassScope.testBit_clearAttribute s a _ ha]
    simp

/-- C8, amended, at an instance: on `sampleBase`, whose `HasConstructor` bit
is set, setting `System` and clearing `System` both keep `HasConstructor`;
and on `sampleDerived`, which has no bit set, `System` is unset after
`clearAttribute(System)`. -/
theorem attribute_bits_kept_except_cleared_witness :
    sampleBase.getAttribute .HasConstructor = true
    ∧ Attribute.System ≠ Attribute.HasConstructor
    ∧ (sampleBase.setAttribute .System).getAttribute .HasConstructor = true
    ∧ (sampleBase.clearAttribute .System).getAttribute .HasConstructor = true
    ∧ (sampleDerived.clearAttribute .System).getAttribute .System = false :=
  ⟨by decide, by decide,
   (attribute_bits_kept_except_cleared sampleBase .System .HasConstructor).1 (by decide),
   (attribute_bits_kept_except_cleared sampleBase .System .HasConstructor).2.1 (by decide)
     (by decide),
   (attribute_bits_kept_except_cleared sampleDerived .System .System).2.2⟩

/-! ### Kinds -/

/-- C2, as stated, fails for enums: `isAbstract()` does not list
`KindOf::Enum`, so an enum scope is final and not abstract. -/
theorem enum_is_abstract_counterexample :
    sampleEnum.m_kindOf = KindOf.Enum ∧ sampleEnum.isAbstract = false := by
  decide

/-- C2, amended: for a scope of kind `Enum`, `UtilClass` or `Trait`,
`isFinal()` is true; `isAbstract()` is true for `UtilClass` and `Trait` and
false for `Enum`. -/
theorem final_and_abstract_of_kind (s : ClassScope)
    (h : s.m_kindOf = KindOf.Enum ∨ s.m_kindOf = KindOf.UtilClass
      ∨ s.m_kindOf = KindOf.Trait) :
    s.isFinal = true
    ∧ (s.m_kindOf = KindOf.UtilClass ∨ s.m_kindOf = KindOf.Trait → s.isAbstract = true)
    ∧ (s.m_kindOf = KindOf.Enum → s.isAbstract = false) := by
  unfold ClassScope.isFinal ClassScope.isAbstract
  rcases h with h | h | h <;> rw [h] <;> decide

/-- C2, amended, at an instance: the enum `sampleEnum` is final and not
abstract. -/
theorem final_and_abstract_of_kind_witness :
    sampleEnum.isFinal = true ∧ sampleEnum.isAbstract = false :=
  ⟨(final_and_abstract_of_kind sampleEnum (Or.inl rfl)).1,
   (final_and_abstract_of_kind sampleEnum (Or.inl rfl)).2.2 rfl⟩

/-! ### The fatal sentinel -/

theorem ClassScope.setFatal_of_none (s : ClassScope) (fatal : AnalysisTimeFatalException)
    (h : s.m_fatal_error_msg = none) :
    s.setFatal fatal = .ok { s with m_fatal_error_msg := some fatal.getMessage } := by
  simp [ClassScope.setFatal, h, makeStaticString]

theorem ClassScope.setFatal_of_some (s : ClassScope) (fatal : AnalysisTimeFatalException)
    (h : s.m_fatal_error_msg ≠ none) :
    s.setFatal fatal = .error .fatalAlreadySet := by
  simp [ClassScope.setFatal, h]

/-- C4: on a scope with no fatal message `setFatal(e)` succeeds and leaves
`getFatalMessage()` non-null and equal to the message of `e`; on a scope that
carries a message `setFatal` fails its first assertion and changes nothing.
Hence a sequence of `setFatal` calls that all succeed is empty when the scope
already carries a message (the scope is returned as it was), and has at most
one call when it carries none: the message is set at most once and is never
changed or removed. -/
theorem fatal_message_set_once (s : ClassScope) (e : AnalysisTimeFatalException) :
    (s.getFatalMessage = none →
      ∃ s1, s.setFatal e = .ok s1
        ∧ s1.getFatalMessage = some e.getMessage ∧ s1.getFatalMessage ≠ none)
    ∧ (s.getFatalMessage ≠ none → s.setFatal e = .error .fatalAlreadySet)
    ∧ (s.getFatalMessage ≠ none →
        ∀ (es : List AnalysisTimeFatalException) (s1 : ClassScope),
          s.setFatalSeq es = .ok s1 ↔ es = [] ∧ s1 = s)
    ∧ (s.getFatalMessage = none →
        ∀ (e2 : AnalysisTimeFatalException) (rest : List AnalysisTimeFatalException),
          s.setFatalSeq (e :: e2 :: rest) = .error .fatalAlreadySet) := by
  refine ⟨?_, ?_, ?_, ?_⟩
  · intro h
    exact ⟨_, s.setFatal_of_none e h, rfl, by simp [ClassScope.getFatalMessage]⟩
  · intro h
    exact s.setFatal_of_some e h
  · intro h es s1
    cases es with
    | nil =>
      simp only [ClassScope.setFatalSeq, true_and]
      constructor
      · intro hs
        injection hs with hs
        exact hs.symm
      · intro hs
        rw [hs]
    | cons e1 rest =>
      simp [ClassScope.setFatalSeq, s.setFatal_of_some e1 h]
  · intro h e2 rest
    have h1 := s.setFatal_of_none e h
    have h2 : ({ s with m_fatal_error_msg := some e.getMessage } : ClassScope).setFatal e2
        = .error .fatalAlreadySet :=
      ClassScope.setFatal_of_some _ e2 (by simp)
    simp [ClassScope.setFatalSeq, h1, h2]

/-- C4, at an instance: `sampleBase` carries no message, and `setFatal`
with the message "boom" stores that message. -/
theorem fatal_message_set_once_witness :
    sampleBase.getFatalMessage = none
    ∧ ∃ s1, sampleBase.setFatal ⟨"boom"⟩ = .ok s1
        ∧ s1.getFatalMessage = some "boom" ∧ s1.getFatalMessage ≠ none :=
  ⟨rfl, (fatal_message_set_once sampleBase ⟨"boom"⟩).1 rfl⟩

/-! ### Trait-method records -/

/-- C5: both `TraitMethod` constructors store the supplied rule modifiers
when that pointer is non-null and the modifiers of the source method
otherwise, and store the supplied trait and method unchanged; with a null
rule-modifier pointer the record has the modifiers of the method itself. -/
theorem traitMethod_ctor_fields (trait_ : Option ClassScope) (method_ : MethodStatement)
    (modifiers_ : Option ModifierExpression) (ruleStmt_ : Option Statement)
    (originalName_ : String) :
    (TraitMethod.ctor trait_ method_ modifiers_ ruleStmt_).modifiers
        = (match modifiers_ with
           | some m => some m
           | none => method_.getModifiers)
    ∧ (TraitMethod.ctor trait_ method_ modifiers_ ruleStmt_).trait = trait_
    ∧ (TraitMethod.ctor trait_ method_ modifiers_ ruleStmt_).method = method_
    ∧ (TraitMethod.ctorNamed trait_ method_ modifiers_ ruleStmt_ originalName_).modifiers
        = (match modifiers_ with
           | some m => some m
           | none => method_.getModifiers)
    ∧ (TraitMethod.ctorNamed trait_ method_ modifiers_ ruleStmt_ originalName_).trait = trait_
    ∧ (TraitMethod.ctorNamed trait_ method_ modifiers_ ruleStmt_ originalName_).method = method_
    ∧ (TraitMethod.ctor trait_ method_ none ruleStmt_).modifiers = method_.m_modifiers
    ∧ (TraitMethod.ctorNamed trait_ method_ none ruleStmt_ originalName_).modifiers
        = method_.m_modifiers := by
  cases modifiers_ <;> exact ⟨rfl, rfl, rfl, rfl, rfl, rfl, rfl, rfl⟩

/-- C6: `TMIOps::traitMethod(trait, method, alias)` builds a record whose
name is the new method name of the alias, whose method is the given method
statement, whose trait is the given trait and whose rule statement is the
alias rule; the method statement held by the record still has its own
original name. -/
theorem tmiops_traitMethod_alias_entry (traitCls : Option ClassScope)
    (methStmt : MethodStatement) (stmt : TraitAliasStatement) :
    (TMIOps.traitMethod traitCls methStmt stmt).originalName = stmt.getNewMethodName
    ∧ (TMIOps.traitMethod traitCls methStmt stmt).originalName
        = TMIOps.aliasNewMethodName stmt
    ∧ (TMIOps.traitMethod traitCls methStmt stmt).method = methStmt
    ∧ (TMIOps.traitMethod traitCls methStmt stmt).trait = traitCls
    ∧ (TMIOps.traitMethod traitCls methStmt stmt).ruleStmt = some (Statement.traitAlias stmt)
    ∧ (TMIOps.traitMethod traitCls methStmt stmt).method.getOriginalName
        = methStmt.getOriginalName :=
  ⟨rfl, rfl, rfl, rfl, rfl, rfl⟩

/-! ### Error hooks -/

/-- C7, as stated, fails: `errorMultiplyExcluded` passes
`Compiler::InconsistentInsteadOf` as the error kind, the very kind that
`errorInconsistentInsteadOf` raises, and not a kind `MultiplyExcluded`. -/
theorem multiply_excluded_kind_counterexample :
    (TMIOps.errorMultiplyExcluded (.traitPrec ⟨"T1", "foo", ["T2"]⟩) "T2" "foo").kind
        = (TMIOps.errorInconsistentInsteadOf sampleDerived "foo").kind
    ∧ (TMIOps.errorMultiplyExcluded (.traitPrec ⟨"T1", "foo", ["T2"]⟩) "T2" "foo").kind
        ≠ ErrorType.MultiplyExcluded := by
  decide

/-- C7, amended: the error raised by `errorMultiplyExcluded` has the kind
`InconsistentInsteadOf`, the same kind as the error of
`errorInconsistentInsteadOf`; the two differ in the message template
(`MULTIPLY_EXCLUDED` against `INCONSISTENT_INSTEADOF`); and for every trait
name and method name its message arguments are exactly that trait name and
that method name, in this order. -/
theorem multiply_excluded_error_shape (stmt : Statement) (traitName methName : String)
    (cs : ClassScope) (otherMethName : String) :
    (TMIOps.errorMultiplyExcluded stmt traitName methName).kind
        = ErrorType.InconsistentInsteadOf
    ∧ (TMIOps.errorMultiplyExcluded stmt traitName methName).kind
        = (TMIOps.errorInconsistentInsteadOf cs otherMethName).kind
    ∧ (TMIOps.errorMultiplyExcluded stmt traitName methName).fmt
        = some Strings.MULTIPLY_EXCLUDED
    ∧ (TMIOps.errorMultiplyExcluded stmt traitName methName).fmt
        ≠ (TMIOps.errorInconsistentInsteadOf cs otherMethName).fmt
    ∧ (TMIOps.errorMultiplyExcluded stmt traitName methName).args = [traitName, methName]
    ∧ (TMIOps.errorMultiplyExcluded stmt traitName methName).site = ErrorSite.stmt stmt :=
  ⟨rfl, rfl, rfl, by simp [TMIOps.errorMultiplyExcluded, TMIOps.errorInconsistentInsteadOf],
   rfl, rfl⟩

/-! ### The used-trait list -/

theorem ClassScope.addUsedTraits_names (s : ClassScope) (names : List String) :
    (s.addUsedTraits names).m_usedTraitNames
      = names.foldl (fun used name => if used.contains name then used else used ++ [name])
          s.m_usedTraitNames := by
  unfold ClassScope.addUsedTraits
  induction names generalizing s with
  | nil => rfl
  | cons n rest ih =>
    simp only [List.foldl_cons]
    rw [ih]
    by_cases h : n ∈ s.m_usedTraitNames
    · simp [ClassScope.usesTrait, h]
    · simp [ClassScope.usesTrait, h]

theorem appendFresh_spec (names : List String) :
    ∀ used : List String, used.Nodup →
      ∃ app : List String,
        names.foldl (fun used name => if used.contains name then used else used ++ [name]) used
          = used ++ app
        ∧ (used ++ app).Nodup
        ∧ (∀ n, n ∈ app ↔ n ∈ names ∧ n ∉ used)
        ∧ app.Pairwise (fun x y => names.indexOf x < names.indexOf y) := by
  induction names with
  | nil =>
    intro used hnd
    exact ⟨[], by simp, by simpa using hnd, by simp, List.Pairwise.nil⟩
  | cons n rest ih =>
    intro used hnd
    by_cases hn : n ∈ used
    · obtain ⟨app, hfold, hnd1, hmem, hord⟩ := ih used hnd
      refine ⟨app, ?_, hnd1, ?_, ?_⟩
      · simp only [List.foldl_cons]
        rw [if_pos (by simpa using hn)]
        exact hfold
      · intro x
        rw [hmem x]
        constructor
        · rintro ⟨hx, hxu⟩
          exact ⟨List.mem_cons_of_mem _ hx, hxu⟩
        · rintro ⟨hx, hxu⟩
          rcases List.mem_cons.mp hx with rfl | hx
          · exact absurd hn hxu
          · exact ⟨hx, hxu⟩
      · refine List.Pairwise.imp_of_mem ?_ hord
        intro x y hx hy hxy
        have hxn : n ≠ x := fun e => ((hmem x).mp hx).2 (e ▸ hn)
        have hyn : n ≠ y := fun e => ((hmem y).mp hy).2 (e ▸ hn)
        rw [List.indexOf_cons_ne _ hxn, List.indexOf_cons_ne _ hyn]
        exact Nat.succ_lt_succ hxy
    · have hnd2 : (used ++ [n]).Nodup := by
        rw [List.nodup_append]
        refine ⟨hnd, List.nodup_singleton n, ?_⟩
        intro x hx hx2
        rw [List.mem_singleton] at hx2
        exact hn (hx2 ▸ hx)
      obtain ⟨app, hfold, hnd1, hmem, hord⟩ := ih (used ++ [n]) hnd2
      refine ⟨n :: app, ?_, ?_, ?_, ?_⟩
      · simp only [List.foldl_cons]
        rw [if_neg (by simpa using hn), hfold]
        simp
      · simpa using hnd1
      · intro x
        rw [List.mem_cons, hmem x]
        constructor
        · rintro (rfl | ⟨hx, hxu⟩)
          · exact ⟨List.mem_cons_self _ _, hn⟩
          · exact ⟨List.mem_cons_of_mem _ hx, fun h => hxu (List.mem_append_left _ h)⟩
        · rintro ⟨hx, hxu⟩
          by_cases hxn : x = n
          · exact Or.inl hxn
          · right
            refine ⟨(List.mem_cons.mp hx).resolve_left hxn, ?_⟩
            intro h
            rcases List.mem_append.mp h with h | h
            · exact hxu h
            · exact hxn (List.mem_singleton.mp h)
      · rw [List.pairwise_cons]
        constructor
        · intro y hy
          have hyn : n ≠ y := fun e =>
            ((hmem y).mp hy).2 (List.mem_append_right _ (by simp [e]))
          rw [List.indexOf_cons_self, List.indexOf_cons_ne _ hyn]
          exact Nat.succ_pos _
        · refine List.Pairwise.imp_of_mem ?_ hord
          intro x y hx hy hxy
          have hxn : n ≠ x := fun e =>
            ((hmem x).mp hx).2 (List.mem_append_right _ (by simp [e]))
          have hyn : n ≠ y := fun e =>
            ((hmem y).mp hy).2 (List.mem_append_right _ (by simp [e]))
          rw [List.indexOf_cons_ne _ hxn, List.indexOf_cons_ne _ hyn]
          exact Nat.succ_lt_succ hxy

/-- C3: on a scope whose used-trait list has no duplicates,
`addUsedTraits(names)` appends a list `app` to the previous list (which so
stays a front part of the new one); the new list has no duplicates; every
name of the input is in it; `app` holds exactly the input names that were not
used before; and the names of `app` stand in the order of their first
occurrence in the input. -/
theorem addUsedTraits_ordered_nodup (s : ClassScope) (names : List String)
    (h : s.getUsedTraitNames.Nodup) :
    ∃ app : List String,
      (s.addUsedTraits names).getUsedTraitNames = s.getUsedTraitNames ++ app
      ∧ (s.addUsedTraits names).getUsedTraitNames.Nodup
      ∧ (∀ n, n ∈ names → n ∈ (s.addUsedTraits names).getUsedTraitNames)
      ∧ (∀ n, n ∈ app ↔ n ∈ names ∧ n ∉ s.getUsedTraitNames)
      ∧ app.Pairwise (fun x y => names.indexOf x < names.indexOf y) := by
  obtain ⟨app, hfold, hnd, hmem, hord⟩ := appendFresh_spec names s.m_usedTraitNames h
  have heq : (s.addUsedTraits names).getUsedTraitNames = s.getUsedTraitNames ++ app := by
    unfold ClassScope.getUsedTraitNames
    rw [ClassScope.addUsedTraits_names, hfold]
  refine ⟨app, heq, ?_, ?_, hmem, hord⟩
  · rw [heq]
    exact hnd
  · intro n hn
    rw [heq]
    by_cases hu : n ∈ s.getUsedTraitNames
    · exact List.mem_append_left _ hu
    · exact List.mem_append_right _ ((hmem n).mpr ⟨hn, hu⟩)

/-- C3, at an instance: `sampleDerived` uses `T1`; adding
`T2, T1, T3, T2` gives `T1, T2, T3`. -/
theorem addUsedTraits_ordered_nodup_witness :
    sampleDerived.getUsedTraitNames.Nodup
    ∧ (sampleDerived.addUsedTraits ["T2", "T1", "T3", "T2"]).getUsedTraitNames
        = ["T1", "T2", "T3"]
    ∧ ∃ app : List String,
        (sampleDerived.addUsedTraits ["T2", "T1", "T3", "T2"]).getUsedTraitNames
          = sampleDerived.getUsedTraitNames ++ app
        ∧ (sampleDerived.addUsedTraits ["T2", "T1", "T3", "T2"]).getUsedTraitNames.Nodup
        ∧ (∀ n, n ∈ ["T2", "T1", "T3", "T2"] →
            n ∈ (sampleDerived.addUsedTraits ["T2", "T1", "T3", "T2"]).getUsedTraitNames)
        ∧ (∀ n, n ∈ app ↔ n ∈ ["T2", "T1", "T3", "T2"] ∧ n ∉ sampleDerived.getUsedTraitNames)
        ∧ app.Pairwise (fun x y =>
            List.indexOf x ["T2", "T1", "T3", "T2"] < List.indexOf y ["T2", "T1", "T3", "T2"]) :=
  ⟨by decide, by decide,
   addUsedTraits_ordered_nodup sampleDerived ["T2", "T1", "T3", "T2"] (by decide)⟩

/-! ### `hasAttribute` -/

theorem ClassScope.hasAttribute_own (gp : ClassScope → Option ClassScope) (fuel : Nat)
    (s : ClassScope) (attr : Attribute) (hg : s.getAttribute attr = true) :
    ClassScope.hasAttribute gp (fuel + 1) s attr = some true := by
  simp [ClassScope.hasAttribute, hg]

theorem ClassScope.hasAttribute_noParent (gp : ClassScope → Option ClassScope) (fuel : Nat)
    (s : ClassScope) (attr : Attribute) (hg : s.getAttribute attr = false)
    (hp : gp s = none) :
    ClassScope.hasAttribute gp (fuel + 1) s attr = some false := by
  simp [ClassScope.hasAttribute, hg, hp]

theorem ClassScope.hasAttribute_redeclaringParent (gp : ClassScope → Option ClassScope)
    (fuel : Nat) (s p : ClassScope) (attr : Attribute) (hg : s.getAttribute attr = false)
    (hp : gp s = some p) (hr : p.isRedeclaring = true) :
    ClassScope.hasAttribute gp (fuel + 1) s attr = some false := by
  simp [ClassScope.hasAttribute, hg, hp, hr]

theorem ClassScope.hasAttribute_parent (gp : ClassScope → Option ClassScope)
    (fuel : Nat) (s p : ClassScope) (attr : Attribute) (hg : s.getAttribute attr = false)
    (hp : gp s = some p) (hr : p.isRedeclaring = false) :
    ClassScope.hasAttribute gp (fuel + 1) s attr = ClassScope.hasAttribute gp fuel p attr := by
  simp [ClassScope.hasAttribute, hg, hp, hr]

theorem ClassScope.parentChainWithin_parent (gp : ClassScope → Option ClassScope) (n : Nat)
    (s p : ClassScope) (h : ClassScope.parentChainWithin gp n s = true) (hp : gp s = some p) :
    ∃ k, n = k + 1 ∧ ClassScope.parentChainWithin gp k p = true := by
  cases n with
  | zero => simp [ClassScope.parentChainWithin, hp] at h
  | succ k => exact ⟨k, rfl, by simpa [ClassScope.parentChainWithin, hp] using h⟩

/-- With the parent chain of `s` ending within `n` hops, every fuel above
`n` gives the same, defined answer. -/
theorem ClassScope.hasAttribute_fuel (gp : ClassScope → Option ClassScope) (attr : Attribute) :
    ∀ (n : Nat) (s : ClassScope), ClassScope.parentChainWithin gp n s = true →
      ∃ b : Bool, ∀ fuel, n < fuel → ClassScope.hasAttribute gp fuel s attr = some b := by
  intro n
  induction n with
  | zero =>
    intro s h
    have hp : gp s = none := by
      simpa [ClassScope.parentChainWithin] using h
    refine ⟨s.getAttribute attr, ?_⟩
    intro fuel hf
    obtain ⟨k, rfl⟩ : ∃ k, fuel = k + 1 := ⟨fuel - 1, by omega⟩
    cases hg : s.getAttribute attr
    · exact ClassScope.hasAttribute_noParent gp k s attr hg hp
    · exact ClassScope.hasAttribute_own gp k s attr hg
  | succ n ih =>
    intro s h
    cases hg : s.getAttribute attr
    · cases hp : gp s with
      | none =>
        exact ⟨false, fun fuel hf => by
          obtain ⟨k, rfl⟩ : ∃ k, fuel = k + 1 := ⟨fuel - 1, by omega⟩
          exact ClassScope.hasAttribute_noParent gp k s attr hg hp⟩
      | some p =>
        cases hr : p.isRedeclaring
        · obtain ⟨k, hk, hc⟩ := ClassScope.parentChainWithin_parent gp (n + 1) s p h hp
          have hkn : k = n := by omega
          subst hkn
          obtain ⟨bp, hbp⟩ := ih p hc
          exact ⟨bp, fun fuel hf => by
            obtain ⟨j, rfl⟩ : ∃ j, fuel = j + 1 := ⟨fuel - 1, by omega⟩
            rw [ClassScope.hasAttribute_parent gp j s p attr hg hp hr]
            exact hbp j (by omega)⟩
        · exact ⟨false, fun fuel hf => by
            obtain ⟨k, rfl⟩ : ∃ k, fuel = k + 1 := ⟨fuel - 1, by omega⟩
            exact ClassScope.hasAttribute_redeclaringParent gp k s p attr hg hp hr⟩
    · exact ⟨true, fun fuel hf => by
        obtain ⟨k, rfl⟩ : ∃ k, fuel = k + 1 := ⟨fuel - 1, by omega⟩
        exact ClassScope.hasAttribute_own gp k s attr hg⟩

/-- C1: for a scope `s` whose parent chain ends within `n` hops,
`hasAttribute(attr)` returns a value `b` with every fuel above `n`, and `b`
is true exactly when the own bit of `s` is set, or `s` has a parent scope
that is not redeclaring (`m_redeclaring < 0`) and whose `hasAttribute(attr)`
returns true. In particular, with the own bit unset and a redeclaring
parent, `b` is false, whatever bits the parent carries. -/
theorem hasAttribute_iff_own_or_parent (getParentScope : ClassScope → Option ClassScope)
    (n : Nat) (s : ClassScope) (attr : Attribute)
    (h : ClassScope.parentChainWithin getParentScope n s = true) :
    ∃ b : Bool,
      (∀ fuel, n < fuel → ClassScope.hasAttribute getParentScope fuel s attr = some b)
      ∧ (b = true ↔
          (s.getAttribute attr = true
            ∨ ∃ p, getParentScope s = some p ∧ p.m_redeclaring < 0
                ∧ ∀ fuel, n ≤ fuel →
                    ClassScope.hasAttribute getParentScope fuel p attr = some true))
      ∧ (s.getAttribute attr = false →
          ∀ p, getParentScope s = some p → 0 ≤ p.m_redeclaring → b = false) := by
  obtain ⟨b, hb⟩ := ClassScope.hasAttribute_fuel getParentScope attr n s h
  have hb1 := hb (n + 1) (Nat.lt_succ_self n)
  have hsome : ∀ {x y : Bool}, some x = some y → x = y := fun e => Option.some.inj e
  refine ⟨b, hb, ?_, ?_⟩
  · constructor
    · intro hbt
      subst hbt
      cases hg : s.getAttribute attr
      · right
        cases hp : getParentScope s with
        | none =>
          rw [ClassScope.hasAttribute_noParent getParentScope n s attr hg hp] at hb1
          exact absurd (hsome hb1) (by decide)
        | some p =>
          cases hr : p.isRedeclaring
          · have hred : p.m_redeclaring < 0 := by
              simpa [ClassScope.isRedeclaring] using hr
            rw [ClassScope.hasAttribute_parent getParentScope n s p attr hg hp hr] at hb1
            obtain ⟨k, hk, hc⟩ := ClassScope.parentChainWithin_parent getParentScope n s p h hp
            obtain ⟨bp, hbp⟩ := ClassScope.hasAttribute_fuel getParentScope attr k p hc
            have e1 := hbp n (by omega)
            rw [hb1] at e1
            refine ⟨p, rfl, hred, ?_⟩
            intro fuel hf
            rw [hbp fuel (by omega), ← e1]
          · rw [ClassScope.hasAttribute_redeclaringParent getParentScope n s p attr hg hp hr]
              at hb1
            exact absurd (hsome hb1) (by decide)
      · exact Or.inl rfl
    · rintro (hg | ⟨p, hp, hred, hpt⟩)
      · rw [ClassScope.hasAttribute_own getParentScope n s attr hg] at hb1
        exact (hsome hb1).symm
      · cases hg : s.getAttribute attr
        · have hr : p.isRedeclaring = false := by
            simp [ClassScope.isRedeclaring, hred]
          rw [ClassScope.hasAttribute_parent getParentScope n s p attr hg hp hr,
            hpt n (Nat.le_refl n)] at hb1
          exact (hsome hb1).symm
        · rw [ClassScope.hasAttribute_own getParentScope n s attr hg] at hb1
          exact (hsome hb1).symm
  · intro hg p hp hr
    have hr1 : p.isRedeclaring = true := by
      simp [ClassScope.isRedeclaring, hr]
    rw [ClassScope.hasAttribute_redeclaringParent getParentScope n s p attr hg hp hr1] at hb1
    exact (hsome hb1).symm

/-- C1, at an instance: `sampleDerived` has no bit of its own and resolves
its parent to `sampleBase`, which is not redeclaring and has
`HasConstructor`; `hasAttribute(HasConstructor)` returns true. With the
redeclared `sampleRedeclaredBase` as parent, which has the same bit, it
returns false. -/
theorem hasAttribute_iff_own_or_parent_witness :
    ClassScope.parentChainWithin sampleParentOf 1 sampleDerived = true
    ∧ ClassScope.hasAttribute sampleParentOf 2 sampleDerived .HasConstructor = some true
    ∧ ClassScope.hasAttribute sampleRedeclaredParentOf 2 sampleDerived .HasConstructor
        = some false
    ∧ ∃ b : Bool,
      (∀ fuel, 1 < fuel →
          ClassScope.hasAttribute sampleParentOf fuel sampleDerived .HasConstructor = some b)
      ∧ (b = true ↔
          (sampleDerived.getAttribute .HasConstructor = true
            ∨ ∃ p, sampleParentOf sampleDerived = some p ∧ p.m_redeclaring < 0
                ∧ ∀ fuel, 1 ≤ fuel →
                    ClassScope.hasAttribute sampleParentOf fuel p .HasConstructor = some true))
      ∧ (sampleDerived.getAttribute .HasConstructor = false →
          ∀ p, sampleParentOf sampleDerived = some p → 0 ≤ p.m_redeclaring → b = false) :=
  ⟨by decide, by decide, by decide,
   hasAttribute_iff_own_or_parent sampleParentOf 1 sampleDerived .HasConstructor (by decide)⟩

/-! ### Trait flattening -/

theorem forall2_trans_of {α : Type} {R : α → α → Prop}
    (htrans : ∀ a b c, R a b → R b c → R a c) :
    ∀ {l1 l2 l3 : List α}, List.Forall₂ R l1 l2 → List.Forall₂ R l2 l3 →
      List.Forall₂ R l1 l3 := by
  intro l1 l2 l3 h12
  induction h12 generalizing l3 with
  | nil =>
    intro h23
    cases h23
    exact List.Forall₂.nil
  | cons hab _ ih =>
    intro h23
    cases h23 with
    | cons hbc htl => exact List.Forall₂.cons (htrans _ _ _ hab hbc) (ih htl)

theorem forall2_set_right {α : Type} {R : α → α → Prop} :
    ∀ {l1 l2 : List α}, List.Forall₂ R l1 l2 → ∀ (i : Nat) (a x : α),
      l1.get? i = some a → R a x → List.Forall₂ R l1 (l2.set i x) := by
  intro l1 l2 h
  induction h with
  | nil =>
    intro i a x hi
    simp at hi
  | cons hab htl ih =>
    intro i a x hi hr
    cases i with
    | zero =>
      simp only [List.get?_cons_zero, Option.some.injEq] at hi
      subst hi
      exact List.Forall₂.cons hr htl
    | succ k =>
      simp only [List.get?_cons_succ] at hi
      exact List.Forall₂.cons hab (ih k a x hi hr)

theorem forall2_get {α : Type} {R : α → α → Prop} :
    ∀ {l1 l2 : List α}, List.Forall₂ R l1 l2 → ∀ (i : Nat) (a : α),
      l1.get? i = some a → ∃ b, l2.get? i = some b ∧ R a b := by
  intro l1 l2 h
  induction h with
  | nil =>
    intro i a hi
    simp at hi
  | cons hab _ ih =>
    intro i a hi
    cases i with
    | zero =>
      simp only [List.get?_cons_zero, Option.some.injEq] at hi
      subst hi
      exact ⟨_, rfl, hab⟩
    | succ k =>
      simp only [List.get?_cons_succ] at hi
      exact ih k a hi

theorem forall2_countP_le {α : Type} {R : α → α → Prop} (p : α → Bool)
    (hp : ∀ a b, R a b → p b = true → p a = true) :
    ∀ {l1 l2 : List α}, List.Forall₂ R l1 l2 → l2.countP p ≤ l1.countP p := by
  intro l1 l2 h
  induction h with
  | nil => exact Nat.le_refl _
  | @cons a b t1 t2 hab _ ih =>
    rw [List.countP_cons, List.countP_cons]
    by_cases hb : p b = true
    · rw [if_pos hb, if_pos (hp a b hab hb)]
      omega
    · rw [if_neg hb]
      split <;> omega

theorem countP_set_lt {α : Type} (p : α → Bool) :
    ∀ (l : List α) (i : Nat) (a x : α), l.get? i = some a → p a = true → p x = false →
      (l.set i x).countP p < l.countP p := by
  intro l
  induction l with
  | nil =>
    intro i a x hi
    simp at hi
  | cons b t ih =>
    intro i a x hi ha hx
    cases i with
    | zero =>
      simp only [List.get?_cons_zero, Option.some.injEq] at hi
      subst hi
      simp [List.countP_cons, ha, hx]
    | succ k =>
      simp only [List.get?_cons_succ] at hi
      have := ih k a x hi ha hx
      simp only [List.set_cons_succ, List.countP_cons]
      omega

theorem StatusAdvance.refl (cs : ClassScope) : StatusAdvance cs cs :=
  ⟨Nat.le_refl _, fun _ => rfl⟩

theorem StatusAdvance.trans (a b c : ClassScope) (hab : StatusAdvance a b)
    (hbc : StatusAdvance b c) : StatusAdvance a c := by
  refine ⟨Nat.le_trans hab.1 hbc.1, ?_⟩
  intro hne
  have hb : b = a := hab.2 hne
  subst hb
  exact hbc.2 hne

theorem statusAdvance_table_refl (ar : ClassTable) : List.Forall₂ StatusAdvance ar ar :=
  List.forall₂_same.mpr (fun cs _ => StatusAdvance.refl cs)

theorem notFlattenedCount_le {ar ar1 : ClassTable} (h : List.Forall₂ StatusAdvance ar ar1) :
    notFlattenedCount ar1 ≤ notFlattenedCount ar := by
  refine forall2_countP_le _ ?_ h
  intro a b hab hb
  have hb1 : b.m_traitStatus = TraitStatus.NOT_FLATTENED := by simpa using hb
  have h1 := hab.1
  rw [hb1] at h1
  have ha : a.m_traitStatus = TraitStatus.NOT_FLATTENED := by
    cases hs : a.m_traitStatus <;> simp [hs, TraitStatus.rank] at h1 ⊢
  simp [ha]

theorem flattenUsedTraits_advance (request : ClassTable → Nat → Option FlattenResult)
    (resolve : String → Option Nat)
    (hreq : ∀ ar tid r, request ar tid = some r → List.Forall₂ StatusAdvance ar r.1) :
    ∀ (names : List String) (ar : ClassTable) (r : FlattenResult),
      flattenUsedTraits request resolve names ar = some r →
      List.Forall₂ StatusAdvance ar r.1 := by
  intro names
  induction names with
  | nil =>
    intro ar r h
    simp only [flattenUsedTraits, Option.some.injEq] at h
    subst h
    exact statusAdvance_table_refl ar
  | cons name rest ih =>
    intro ar r h
    simp only [flattenUsedTraits] at h
    split at h
    · exact ih ar r h
    · split at h
      · exact ih ar r h
      · split at h
        · split at h
          · exact absurd h (by simp)
          · rename_i r1 hr1
            split at h
            · exact absurd h (by simp)
            · rename_i r2 hr2
              simp only [Option.some.injEq] at h
              subst h
              exact forall2_trans_of StatusAdvance.trans (hreq _ _ _ hr1) (ih _ r2 hr2)
        · exact ih ar r h

theorem flattenUsedTraits_returns (request : ClassTable → Nat → Option FlattenResult)
    (resolve : String → Option Nat) (bound : Nat)
    (hreq : ∀ ar tid r, request ar tid = some r → List.Forall₂ StatusAdvance ar r.1)
    (hret : ∀ ar tid, tid < ar.length → notFlattenedCount ar ≤ bound →
      ∃ r, request ar tid = some r) :
    ∀ (names : List String) (ar : ClassTable), notFlattenedCount ar ≤ bound →
      ∃ r, flattenUsedTraits request resolve names ar = some r := by
  intro names
  induction names with
  | nil =>
    intro ar _
    exact ⟨(ar, []), rfl⟩
  | cons name rest ih =>
    intro ar hc
    simp only [flattenUsedTraits]
    split
    · exact ih ar hc
    · rename_i tid _
      split
      · exact ih ar hc
      · rename_i trait htr
        split
        · have hlt : tid < ar.length := by
            rcases Nat.lt_or_ge tid ar.length with hl | hl
            · exact hl
            · rw [List.get?_eq_none.mpr hl] at htr
              exact absurd htr (by simp)
          obtain ⟨r1, hr1⟩ := hret ar tid hlt hc
          have hc1 : notFlattenedCount r1.1 ≤ bound :=
            Nat.le_trans (notFlattenedCount_le (hreq _ _ _ hr1)) hc
          obtain ⟨r2, hr2⟩ := ih r1.1 hc1
          rw [hr1]
          simp only
          rw [hr2]
          exact ⟨_, rfl⟩
        · exact ih ar hc

theorem get?_set_self {α : Type} :
    ∀ (l : List α) (i : Nat) (a x : α), l.get? i = some a → (l.set i x).get? i = some x := by
  intro l
  induction l with
  | nil =>
    intro i a x hi
    simp at hi
  | cons b t ih =>
    intro i a x hi
    cases i with
    | zero => rfl
    | succ k =>
      simp only [List.get?_cons_succ] at hi
      simpa using ih k a x hi

theorem importUsedTraits_flattened (resolve : String → Option Nat)
    (rules : ClassScope → List TraitMethod → List TraitMethod × List AnalysisTimeFatal)
    (fuel : Nat) (ar : ClassTable) (id : Nat) (cs : ClassScope)
    (hid : ar.get? id = some cs) (hs : cs.m_traitStatus = TraitStatus.FLATTENED) :
    importUsedTraits resolve rules (fuel + 1) ar id = some (ar, []) := by
  simp only [importUsedTraits, hid, hs]

theorem importUsedTraits_being (resolve : String → Option Nat)
    (rules : ClassScope → List TraitMethod → List TraitMethod × List AnalysisTimeFatal)
    (fuel : Nat) (ar : ClassTable) (id : Nat) (cs : ClassScope)
    (hid : ar.get? id = some cs) (hs : cs.m_traitStatus = TraitStatus.BEING_FLATTENED) :
    importUsedTraits resolve rules (fuel + 1) ar id
      = some (ar, [{ site := .scopeStmt cs, kind := .TraitCompositionCycle, fmt := none,
                     args := [cs.m_originalName] }]) := by
  simp only [importUsedTraits, hid, hs]

theorem importUsedTraits_advance (resolve : String → Option Nat)
    (rules : ClassScope → List TraitMethod → List TraitMethod × List AnalysisTimeFatal) :
    ∀ (fuel : Nat) (ar : ClassTable) (id : Nat) (r : FlattenResult),
      importUsedTraits resolve rules fuel ar id = some r →
      List.Forall₂ StatusAdvance ar r.1 := by
  intro fuel
  induction fuel with
  | zero =>
    intro ar id r h
    simp [importUsedTraits] at h
  | succ fuel ih =>
    intro ar id r h
    simp only [importUsedTraits] at h
    split at h
    · exact absurd h (by simp)
    · rename_i cs hid
      split at h
      · simp only [Option.some.injEq] at h
        subst h
        exact statusAdvance_table_refl ar
      · simp only [Option.some.injEq] at h
        subst h
        exact statusAdvance_table_refl ar
      · rename_i hs
        split at h
        · exact absurd h (by simp)
        · rename_i r2 hr2
          split at h
          · exact absurd h (by simp)
          · rename_i cs2 hcs2
            simp only [Option.some.injEq] at h
            subst h
            have h1 : List.Forall₂ StatusAdvance ar
                (ar.set id { cs with m_traitStatus := TraitStatus.BEING_FLATTENED }) :=
              forall2_set_right (statusAdvance_table_refl ar) id cs _ hid
                ⟨by simp [hs, TraitStatus.rank], fun hne => absurd hs hne⟩
            have h2 := flattenUsedTraits_advance _ resolve (ih) _ _ _ hr2
            have h3 := forall2_trans_of StatusAdvance.trans h1 h2
            exact forall2_set_right h3 id cs _ hid
              ⟨by simp [hs, TraitStatus.rank], fun hne => absurd hs hne⟩

theorem importUsedTraits_returns (resolve : String → Option Nat)
    (rules : ClassScope → List TraitMethod → List TraitMethod × List AnalysisTimeFatal) :
    ∀ (fuel : Nat) (ar : ClassTable) (id : Nat), id < ar.length →
      notFlattenedCount ar < fuel →
      ∃ r, importUsedTraits resolve rules fuel ar id = some r := by
  intro fuel
  induction fuel with
  | zero =>
    intro ar id _ hc
    exact absurd hc (Nat.not_lt_zero _)
  | succ fuel ih =>
    intro ar id hlt hc
    obtain ⟨cs, hid⟩ : ∃ cs, ar.get? id = some cs := ⟨ar.get ⟨id, hlt⟩, List.get?_eq_get hlt⟩
    cases hs : cs.m_traitStatus with
    | FLATTENED => exact ⟨_, importUsedTraits_flattened resolve rules fuel ar id cs hid hs⟩
    | BEING_FLATTENED => exact ⟨_, importUsedTraits_being resolve rules fuel ar id cs hid hs⟩
    | NOT_FLATTENED =>
      have hdec : notFlattenedCount
          (ar.set id { cs with m_traitStatus := TraitStatus.BEING_FLATTENED })
            < notFlattenedCount ar :=
        countP_set_lt _ ar id cs _ hid (by simp [hs]) (by simp)
      have hpos : 0 < fuel := by omega
      obtain ⟨r2, hr2⟩ := flattenUsedTraits_returns
        (importUsedTraits resolve rules fuel) resolve (fuel - 1)
        (importUsedTraits_advance resolve rules fuel)
        (fun ar1 tid htid hc1 => ih ar1 tid htid (by omega))
        cs.m_usedTraitNames
        (ar.set id { cs with m_traitStatus := TraitStatus.BEING_FLATTENED }) (by omega)
      have hadv := flattenUsedTraits_advance _ resolve
        (importUsedTraits_advance resolve rules fuel) _ _ _ hr2
      obtain ⟨cs2, hcs2, _⟩ := forall2_get hadv id _ (get?_set_self ar id cs _ hid)
      simp only [importUsedTraits, hid, hs, hr2, hcs2]
      exact ⟨_, rfl⟩

theorem importUsedTraits_completes (resolve : String → Option Nat)
    (rules : ClassScope → List TraitMethod → List TraitMethod × List AnalysisTimeFatal)
    (fuel : Nat) (ar : ClassTable) (id : Nat) (cs : ClassScope) (r : FlattenResult)
    (h : importUsedTraits resolve rules fuel ar id = some r)
    (hid : ar.get? id = some cs) (hs : cs.m_traitStatus = TraitStatus.NOT_FLATTENED) :
    ∃ cs1, r.1.get? id = some cs1 ∧ cs1.m_traitStatus = TraitStatus.FLATTENED := by
  cases fuel with
  | zero => simp [importUsedTraits] at h
  | succ fuel =>
    simp only [importUsedTraits, hid, hs] at h
    split at h
    · exact absurd h (by simp)
    · rename_i r2 hr2
      split at h
      · exact absurd h (by simp)
      · rename_i cs2 hcs2
        simp only [Option.some.injEq] at h
        subst h
        exact ⟨_, get?_set_self _ id cs2 _ hcs2, rfl⟩

/-- C9: a flatten request on the scope at position `id`, made with more fuel
than the table has scopes that are `NOT_FLATTENED`, returns. In the table it
returns, every scope has a status at or after the one it had in the order
`NOT_FLATTENED`, `BEING_FLATTENED`, `FLATTENED`, and a scope that was not
`NOT_FLATTENED` is unchanged; a scope that was `NOT_FLATTENED` and was
requested is `FLATTENED`; a request on a `FLATTENED` scope changes nothing.
Once the scope is `FLATTENED`, a second request (with any fuel) returns the
very same table, so the same method tables, attribute bits and statuses, and
raises no error. -/
theorem importUsedTraits_idempotent (resolve : String → Option Nat)
    (applyTraitRules : ClassScope → List TraitMethod → List TraitMethod × List AnalysisTimeFatal)
    (ar : ClassTable) (id : Nat) (cs : ClassScope) (fuel : Nat)
    (hid : ar.get? id = some cs) (hfuel : notFlattenedCount ar < fuel) :
    ∃ r : FlattenResult,
      importUsedTraits resolve applyTraitRules fuel ar id = some r
      ∧ r.1.length = ar.length
      ∧ (∀ (j : Nat) (before : ClassScope), ar.get? j = some before →
          ∃ after, r.1.get? j = some after
            ∧ before.m_traitStatus.rank ≤ after.m_traitStatus.rank
            ∧ (before.m_traitStatus ≠ TraitStatus.NOT_FLATTENED → after = before))
      ∧ (cs.m_traitStatus = TraitStatus.NOT_FLATTENED →
          ∃ cs1, r.1.get? id = some cs1 ∧ cs1.m_traitStatus = TraitStatus.FLATTENED)
      ∧ (cs.m_traitStatus = TraitStatus.FLATTENED → r = (ar, []))
      ∧ (∀ cs1, r.1.get? id = some cs1 → cs1.m_traitStatus = TraitStatus.FLATTENED →
          ∀ fuel2, importUsedTraits resolve applyTraitRules (fuel2 + 1) r.1 id = some (r.1, []))
      := by
  have hlt : id < ar.length := by
    rcases Nat.lt_or_ge id ar.length with hl | hl
    · exact hl
    · rw [List.get?_eq_none.mpr hl] at hid
      exact absurd hid (by simp)
  obtain ⟨r, hr⟩ := importUsedTraits_returns resolve applyTraitRules fuel ar id hlt hfuel
  have hadv := importUsedTraits_advance resolve applyTraitRules fuel ar id r hr
  refine ⟨r, hr, hadv.length_eq.symm, ?_, ?_, ?_, ?_⟩
  · intro j before hj
    obtain ⟨after, hafter, hsa⟩ := forall2_get hadv j before hj
    exact ⟨after, hafter, hsa.1, hsa.2⟩
  · intro hs
    exact importUsedTraits_completes resolve applyTraitRules fuel ar id cs r hr hid hs
  · intro hs
    obtain ⟨k, rfl⟩ : ∃ k, fuel = k + 1 := ⟨fuel - 1, by omega⟩
    rw [importUsedTraits_flattened resolve applyTraitRules k ar id cs hid hs] at hr
    exact (Option.some.inj hr).symm
  · intro cs1 hcs1 hs1 fuel2
    exact importUsedTraits_flattened resolve applyTraitRules fuel2 r.1 id cs1 hcs1 hs1

/-- C9, at an instance: in `sampleTable` the class `Derived` (position 1)
uses the trait `T1` (position 0), both `NOT_FLATTENED`. The first request
imports `hello` and leaves both scopes `FLATTENED`. -/
theorem importUsedTraits_idempotent_witness :
    sampleTable.get? 1 = some sampleDerived
    ∧ notFlattenedCount sampleTable < 3
    ∧ (importUsedTraits sampleResolve noTraitRules 3 sampleTable 1).map
        (fun r => r.1.map (fun c => (c.m_traitStatus, c.m_functionsVec.map (fun f => f.name))))
        = some [(TraitStatus.FLATTENED, ["hello"]), (TraitStatus.FLATTENED, ["hello"])]
    ∧ ∃ r : FlattenResult,
      importUsedTraits sampleResolve noTraitRules 3 sampleTable 1 = some r
      ∧ r.1.length = sampleTable.length
      ∧ (∀ (j : Nat) (before : ClassScope), sampleTable.get? j = some before →
          ∃ after, r.1.get? j = some after
            ∧ before.m_traitStatus.rank ≤ after.m_traitStatus.rank
            ∧ (before.m_traitStatus ≠ TraitStatus.NOT_FLATTENED → after = before))
      ∧ (sampleDerived.m_traitStatus = TraitStatus.NOT_FLATTENED →
          ∃ cs1, r.1.get? 1 = some cs1 ∧ cs1.m_traitStatus = TraitStatus.FLATTENED)
      ∧ (sampleDerived.m_traitStatus = TraitStatus.FLATTENED → r = (sampleTable, []))
      ∧ (∀ cs1, r.1.get? 1 = some cs1 → cs1.m_traitStatus = TraitStatus.FLATTENED →
          ∀ fuel2, importUsedTraits sampleResolve noTraitRules (fuel2 + 1) r.1 1 = some (r.1, [])) :=
  ⟨rfl, by decide, by decide,
   importUsedTraits_idempotent sampleResolve noTraitRules sampleTable 1 sampleDerived 3 rfl
     (by decide)⟩

end HPHP
